import Mathlib

/-!
A shallow embedding of `src/transcript.py` (a video → segment-level
profanity-label CSV pipeline) together with proofs about its components:
the whole-word profanity classifier (`contains_profane_words`), the
fixed-window audio segmenter (`split_audio`), the lexicon loader
(`load_profane_words_from_csv`), the CSV result sink (`save_to_csv`) and
the orchestrator (`main`) with its temporary-file lifecycle.

Machine strings are modelled over ASCII (Lean `Char` predicates mirror
Python's `str` predicates on the ASCII range, which is what the pipeline's
data exercises).  External effects (the speech engine, the media decoder,
the file system) are modelled as explicit oracles/environments, and the
set of currently-existing temporary files is threaded as explicit state.
-/

/-! ## Classifier: `contains_profane_words` (transcript.py lines 27-35) -/

/-- A word character in the sense of the regex `\b` boundary: Python's
`\w` restricted to ASCII, i.e. a letter, a digit or an underscore. -/
def isWordChar (c : Char) : Bool :=
  c.isAlphanum || c == '_'

/-- Whether an optional character (a character at a position that may be
out of range) is a word character; out of range counts as non-word. -/
def optIsWord : Option Char → Bool
  | some c => isWordChar c
  | none => false

/-- The regex word-boundary assertion `\b` of Python `re`, at position
`i` (0 ≤ i ≤ s.length) of the character list `s`: exactly one of the
character before `i` and the character at `i` is a word character. -/
def wordBoundary (s : List Char) (i : Nat) : Bool :=
  optIsWord (s.take i).getLast? != optIsWord (s.drop i).head?

/-- `re.search(r'\b' + re.escape(w) + r'\b', s)` anchored at position `i`:
a word boundary at `i`, the literal characters of `w` starting at `i`,
and a word boundary right after them. -/
def matchTermAt (s w : List Char) (i : Nat) : Bool :=
  wordBoundary s i && w.isPrefixOf (s.drop i) && wordBoundary s (i + w.length)

/-- `re.search(r'\b' + re.escape(w) + r'\b', s) is not None`: the anchored
match succeeds at some position of `s` (including the end position). -/
def searchTerm (s w : List Char) : Bool :=
  (List.range (s.length + 1)).any (matchTermAt s w)

/-- `contains_profane_words(text, profane_words)` from transcript.py:
lowercase the text, then report whether any lexicon term matches it under
the word-boundary regex.  The Python set of terms is modelled as a list
(iteration order is irrelevant to the disjunction). -/
def contains_profane_words (text : String) (profane_words : List String) : Bool :=
  profane_words.any (fun w => searchTerm (text.toList.map Char.toLower) w.toList)

/-- Modelled from the spec: `w` occurs in `s` as a whole word at position
`i` — the characters of `w` appear at `i`, the character before them (if
any) is not a word character, and the character after them (if any) is
not a word character. -/
def wholeWordAt (s w : List Char) (i : Nat) : Bool :=
  w.isPrefixOf (s.drop i)
    && !optIsWord (s.take i).getLast?
    && !optIsWord (s.drop (i + w.length)).head?

/-- Modelled from the spec: `w` is a whole word of `s` — a non-empty run
of word characters occurring in `s` delimited on both sides by a
non-word character or an end of the string. -/
def isWholeWordOf (s w : List Char) : Bool :=
  !w.isEmpty && w.all isWordChar && (List.range (s.length + 1)).any (wholeWordAt s w)

/-! ## Segmenter: `split_audio` (transcript.py lines 43-49) -/

/-- The ascending iteration of Python `range(i, stop, step)` for a
positive `step`: emit `i` and continue from `i + step` while `i < stop`.
The `fuel` argument only bounds the recursion; `fuel = stop - i`
iterations always suffice when `0 < step` (see `pyRangeUp_closed_form`),
so the guard `i < stop` is what actually stops the loop, exactly as in
Python. -/
def pyRangeUp : Nat → Nat → Nat → Nat → List Nat
  | 0, _, _, _ => []
  | fuel + 1, i, stop, step => if i < stop then i :: pyRangeUp fuel (i + step) stop step else []

/-- The error raised by Python `range` when its step is zero
(`ValueError: range() arg 3 must not be zero`). -/
inductive RangeError where
  | zeroStep
  deriving DecidableEq

/-- Python `range(0, stop, step)` over integer `step`: a zero step raises
a `ValueError`; a negative step descending from 0 with a stop ≥ 0 yields
no elements; a positive step iterates ascending below `stop`. -/
def pyRange0 (stop : Nat) (step : Int) : Except RangeError (List Nat) :=
  if step = 0 then .error .zeroStep
  else if step < 0 then .ok []
  else .ok (pyRangeUp stop 0 stop step.toNat)

/-- `split_audio(audio_path, chunk_length_ms)` from transcript.py.  The
decoded audio is modelled by its length in milliseconds; the slice
`audio[i:i + w]` is modelled by the half-open interval
`(i, min (i + w) len)` (pydub slices by milliseconds and clamps at the
end), so a chunk is a `(start_ms, end_ms)` pair and `len(chunk)` is
`end_ms - start_ms`. -/
def split_audio (audio_len : Nat) (chunk_length_ms : Int) :
    Except RangeError (List (Nat × Nat)) :=
  (pyRange0 audio_len chunk_length_ms).map
    (fun starts => starts.map (fun i => (i, min (i + chunk_length_ms.toNat) audio_len)))

/-! ## Lexicon loader: `load_profane_words_from_csv` (transcript.py lines 13-24) -/

/-- The outcome reported (printed) by the lexicon loader: either the
terms were loaded, or the source file was absent (reported with a
message, not raised). -/
inductive LoadOutcome where
  | loaded
  | notFound
  deriving DecidableEq

/-- Python `str.strip()` (ASCII whitespace): drop leading and trailing
whitespace characters. -/
def pyStrip (s : String) : String :=
  String.mk (((s.toList.dropWhile Char.isWhitespace).reverse.dropWhile
    Char.isWhitespace).reverse)

/-- Python `str.lower()` (ASCII): lowercase every character. -/
def pyLower (s : String) : String :=
  String.mk (s.toList.map Char.toLower)

/-- Python's `'Profanity' in row` / `row['Profanity']` on a `csv.DictReader`
row, the row modelled as an association list from column names to cell
values: the value at the first matching key, if any. -/
def pyLookup {α : Type} (key : String) (row : List (String × α)) : Option α :=
  (row.find? (fun kv => kv.1 == key)).map (fun kv => kv.2)

/-- Python `set.add`: insert an element unless already present.  The
Python set is modelled as a duplicate-free list. -/
def pySetAdd (s : List String) (x : String) : List String :=
  if x ∈ s then s else s ++ [x]

/-- The exceptions the lexicon loader can raise, none of which it
catches: `csv.DictReader` fills the columns of a data row shorter than
the header with `None`, so `row['Profanity'].strip()` raises
`AttributeError` on such a row; opening or reading an existing path can
raise an `OSError` (e.g. `IsADirectoryError`) or a
`UnicodeDecodeError`. -/
inductive LoadExc where
  | attributeError
  | osError
  | unicodeDecodeError
  deriving DecidableEq

/-- What the file system and the csv module yield for an existing
profanity-csv path: either opening/decoding the file raises, or it
parses into `DictReader` rows — association lists from column names to
cell values, a cell being `none` when the data row was shorter than the
header (DictReader's `None` fill) and `some v` when it holds the
string `v`. -/
inductive LoadSrc where
  | failure (e : LoadExc)
  | rows (rs : List (List (String × Option String)))

/-- One row of the loader's `for row in reader` loop: a row without the
`Profanity` key is skipped silently; a row whose `Profanity` cell is
`None` raises `AttributeError` at `row['Profanity'].strip()`; otherwise
the stripped, lowercased value is added to the set. -/
def loadRow (acc : List String) (row : List (String × Option String)) :
    Except LoadExc (List String) :=
  match pyLookup "Profanity" row with
  | none => .ok acc
  | some none => .error .attributeError
  | some (some v) => .ok (pySetAdd acc (pyLower (pyStrip v)))

/-- The loader's row loop: a left fold of `loadRow` over the rows,
aborting at the first raising row. -/
def loadRows : List (List (String × Option String)) → List String →
    Except LoadExc (List String)
  | [], acc => .ok acc
  | row :: rest, acc =>
    match loadRow acc row with
    | .error e => .error e
    | .ok acc2 => loadRows rest acc2

/-- `load_profane_words_from_csv(csv_path)` from transcript.py.  The
file system's answer for `csv_path` is modelled by `src`: `none` when
`os.path.exists` is false — the only failure the function handles (it
prints the not-found message and returns an empty set) — and `some` a
`LoadSrc` when the path exists.  An open/decode failure, or a row
whose `Profanity` cell was `None`-filled, makes the whole call
raise. -/
def load_profane_words_from_csv (src : Option LoadSrc) :
    Except LoadExc (List String × LoadOutcome) :=
  match src with
  | none => .ok ([], .notFound)
  | some (.failure e) => .error e
  | some (.rows rs) =>
    match loadRows rs [] with
    | .error e => .error e
    | .ok lex => .ok (lex, .loaded)

/-- One row step of the loader's loop restricted to complete rows
(every cell a string): the `Profanity` value, when the key is present,
is stripped, lowercased and added; other rows are skipped. -/
def loadRowStep (acc : List String) (row : List (String × String)) : List String :=
  match pyLookup "Profanity" row with
  | some v => pySetAdd acc (pyLower (pyStrip v))
  | none => acc

/-- The `DictReader` rows of a csv whose data rows all have at least as
many fields as the header: every cell holds a string, none is
`None`-filled. -/
def completeRows (rows : List (List (String × String))) : LoadSrc :=
  .rows (rows.map (fun row => row.map (fun kv => (kv.1, some kv.2))))

/-- The lexicon loader restricted to sources on which it cannot raise:
the path is absent, or the file parses into complete (string-valued)
rows.  On these sources it agrees with `load_profane_words_from_csv`
(theorem `load_complete_agrees`); the orchestrator model consumes it so
that pipeline runs are stated over environments in which the lexicon
load returns — a load that raises aborts `main` before the top-level
temporary file is even created (see `load_profane_words_cex`). -/
def load_profane_words_complete (src : Option (List (List (String × String)))) :
    List String × LoadOutcome :=
  match src with
  | some rows => (rows.foldl loadRowStep [], .loaded)
  | none => ([], .notFound)

/-! ## Segment records and their formatting (transcript.py lines 63-71) -/

/-- Round-to-nearest with ties to even of the quotient `p / q` (for
`q > 0`): the integer nearest to the exact rational, an exact tie going
to the even neighbour. -/
def rheDiv (p q : Nat) : Nat :=
  if 2 * (p % q) < q then p / q
  else if q < 2 * (p % q) then p / q + 1
  else if p / q % 2 = 0 then p / q else p / q + 1

/-- `⌊log₂ n⌋` (0 for `n ≤ 1`), with explicit fuel (`fuel ≥ n`
suffices) so that it is structurally recursive. -/
def log2fuel : Nat → Nat → Nat
  | 0, _ => 0
  | fuel + 1, n => if 2 ≤ n then log2fuel fuel (n / 2) + 1 else 0

/-- The smallest `t` with `a * 2 ^ t ≥ b`, with explicit fuel
(`fuel ≥ b` suffices for `a ≥ 1`). -/
def upShiftFuel : Nat → Nat → Nat → Nat
  | 0, _, _ => 0
  | fuel + 1, a, b => if b ≤ a then 0 else upShiftFuel fuel (2 * a) b + 1

/-- `⌊log₂ (a / b)⌋` as an integer, for `a, b ≥ 1`: the unique `e` with
`2 ^ e ≤ a / b < 2 ^ (e + 1)`. -/
def floorLog2Rat (a b : Nat) : Int :=
  if b ≤ a then (log2fuel a (a / b) : Int)
  else -(upShiftFuel b a b : Int)

/-- The integer nearest (ties to even) to `(a / b) · 2 ^ (-E)`, in
exact integer arithmetic. -/
def mantissaAt (a b : Nat) (E : Int) : Nat :=
  rheDiv (a * 2 ^ (-E).toNat) (b * 2 ^ E.toNat)

/-- `f"{ms / 1000:.1f}"` for a duration `ms` in milliseconds, following
CPython exactly: the value `ms / 1000` is first converted to the
nearest IEEE binary64 (round to nearest, ties to even) — represented
here exactly as `m · 2 ^ E` with `m = mantissaAt ms 1000 E` and
`E = ⌊log₂ (ms / 1000)⌋ − 52`, so that the true quotient scaled by
`2 ^ (−E)` lies in `[2^52, 2^53)`, i.e. `2 ^ E` is the spacing of
representable doubles in that binade — and that double is then rendered
with one decimal digit, rounding its exact value to the nearest tenth,
ties to even.  Both steps are exact integer arithmetic; a value at or
beyond `2 ^ 1024` (written `1 <<< 1024`) overflows to infinity and
prints "inf", as in Python.
(E.g. `ms = 250` gives the exactly representable double 0.25 and the
tie goes to even: "0.2".) -/
def formatSec (ms : Nat) : String :=
  if ms = 0 then "0.0"
  else
    let E : Int := floorLog2Rat ms 1000 - 52
    let m : Nat := mantissaAt ms 1000 E
    if 1 <<< 1024 ≤ m * 2 ^ E.toNat then "inf"
    else
      let t : Nat := if 0 ≤ E then m * 10 * 2 ^ E.toNat else rheDiv (m * 10) (2 ^ (-E).toNat)
      toString (t / 10) ++ "." ++ toString (t % 10)

/-- The `segment` field
`f"{start_ms / 1000:.1f}s - {(start_ms + len(chunk)) / 1000:.1f}s"` of a
chunk `(start_ms, end_ms)`, whose pydub length is `end_ms - start_ms`. -/
def formatSegment (start_ms end_ms : Nat) : String :=
  formatSec start_ms ++ "s - " ++ formatSec (start_ms + (end_ms - start_ms)) ++ "s"

/-- One row of the output: the dict
`{"segment": ..., "text": ..., "label": ...}` appended for each chunk. -/
structure SegmentRecord where
  segment : String
  text : String
  label : Nat
  deriving DecidableEq

/-- The record built for the chunk `(start_ms, end_ms)` whose raw engine
transcription is `raw`: text is the stripped transcription, label is 1
exactly when the classifier fires on it. -/
def mkRecord (start_ms end_ms : Nat) (raw : String) (profane_words : List String) :
    SegmentRecord :=
  { segment := formatSegment start_ms end_ms
    text := pyStrip raw
    label := if contains_profane_words (pyStrip raw) profane_words then 1 else 0 }

/-! ## Result sink: `save_to_csv` (transcript.py lines 79-95) -/

/-- Doubling of quote characters inside a quoted csv field. -/
def csvEscape : List Char → List Char
  | [] => []
  | c :: rest => if c == '"' then '"' :: '"' :: csvEscape rest else c :: csvEscape rest

/-- A field of a `csv.writer` row: quoted (with inner quotes doubled)
when it contains a separator, a quote or a line break, verbatim
otherwise (the csv module's default QUOTE_MINIMAL behaviour). -/
def csvField (s : String) : String :=
  if s.toList.any (fun c => c == ',' || c == '"' || c == '\n' || c == '\r') then
    "\"" ++ String.mk (csvEscape s.toList) ++ "\""
  else s

/-- One data line written by `csv.DictWriter.writerow` for a record, the
fields in fieldnames order `segment, text, label`. -/
def renderRow (r : SegmentRecord) : String :=
  csvField r.segment ++ "," ++ csvField r.text ++ "," ++ csvField (toString r.label)

/-- The full sequence of lines written to the output file: the header
naming the three columns, then one line per record in list order. -/
def renderCsv (rows : List SegmentRecord) : List String :=
  "segment,text,label" :: rows.map renderRow

/-- The Python exceptions relevant to the sink, all subclasses of
`Exception` (so both `except` clauses together catch every one of
them). -/
inductive PyExc where
  | permissionError
  | fileNotFoundError
  | otherOSError
  deriving DecidableEq

/-- What the operating system does when the sink touches it: the
exception (if any) raised by `os.makedirs` on a non-empty directory
path, and the exception (if any) raised by opening/writing the output
file. -/
structure SinkEnv where
  makedirsExc : Option PyExc
  openExc : Option PyExc
  deriving DecidableEq

/-- `os.path.dirname` (POSIX): everything up to the last `/`, with
trailing slashes stripped unless the result consists only of slashes;
a path with no `/` has the empty dirname. -/
def pyDirname (p : List Char) : List Char :=
  let head := (p.reverse.dropWhile (fun c => c != '/')).reverse
  if head.all (fun c => c == '/') then head
  else (head.reverse.dropWhile (fun c => c == '/')).reverse

/-- `os.makedirs(name, exist_ok=True)`: on the empty path it always
raises `FileNotFoundError` (mkdir('') fails with ENOENT and
`exist_ok` does not suppress it because `''` is not a directory);
otherwise the environment says whether it raises. -/
def os_makedirs (name : List Char) (env : SinkEnv) : Option PyExc :=
  if name.isEmpty then some .fileNotFoundError else env.makedirsExc

/-- The observable outcome of `save_to_csv`: the file was written with
the given lines, or the `except PermissionError` message was printed, or
the generic `except Exception` message was printed. -/
inductive SaveOutcome where
  | saved (lines : List String)
  | permissionDenied
  | genericError
  deriving DecidableEq

/-- `save_to_csv(transcriptions, output_file)` from transcript.py:
`os.makedirs(os.path.dirname(output_file), exist_ok=True)`, then write
header and rows; `except PermissionError` reports permission denial,
`except Exception` reports a generic error.  No exception escapes, and
the input list is not modified. -/
def save_to_csv (transcriptions : List SegmentRecord) (output_file : String)
    (env : SinkEnv) : SaveOutcome :=
  match os_makedirs (pyDirname output_file.toList) env with
  | some .permissionError => .permissionDenied
  | some _ => .genericError
  | none =>
    match env.openExc with
    | some .permissionError => .permissionDenied
    | some _ => .genericError
    | none => .saved (renderCsv transcriptions)

/-! ## Orchestrator: `transcribe_and_label_chunks` (lines 52-76) and `main` (lines 98-118) -/

/-- The unhandled exceptions that can escape `main` and abort the run:
the pre-flight `FileNotFoundError` for a missing video, a decode failure
in the extractor, and a per-segment failure of the speech engine
(carrying the index of the offending segment). -/
inductive PipelineError where
  | inputNotFound
  | mediaDecodeError
  | transcriptionError (idx : Nat)
  deriving DecidableEq

/-- The file-system facts the pipeline manipulates: whether the
top-level temporary audio file of `main` currently exists, which
per-segment temporary files (named by segment index) currently exist,
the lines of the output csv if it has been written, and the list of
segment indices on which the speech engine has been invoked. -/
structure FS where
  tempTopExists : Bool
  segTemps : List Nat
  outputFile : Option (List String)
  transcribeCalls : List Nat
  deriving DecidableEq

/-- Everything the outside world decides about one run: whether the
video path exists, whether audio extraction succeeds, the extracted
audio's length in milliseconds, the speech engine's answer per segment
index (`none` models the engine raising), the profanity csv (absent,
or parsed into complete string-valued rows — a lexicon load that
raises aborts `main` before any temporary file exists, see
`load_profane_words_cex`, so such runs have an empty file-system
footprint and are outside this run model), and the sink's I/O
behaviour. -/
structure RunEnv where
  videoExists : Bool
  extractOk : Bool
  audioLen : Nat
  transcribe : Nat → Option String
  profanityCsv : Option (List (List (String × String)))
  sink : SinkEnv

/-- The `for start_ms, chunk in chunks` loop of
`transcribe_and_label_chunks`, processing the remaining `chunks`, the
next of which is segment number `idx`.  Each iteration creates the
per-segment temporary file, invokes the engine; on success it appends
the record and removes the temporary file before recursing, on an
engine exception it propagates immediately — the `os.remove` line is
never reached, so the temporary file stays in `segTemps`. -/
def transcribe_go (transcribe : Nat → Option String) (profane_words : List String)
    (idx : Nat) (chunks : List (Nat × Nat)) (acc : List SegmentRecord) (fs : FS) :
    Except PipelineError (List SegmentRecord) × FS :=
  match chunks with
  | [] => (.ok acc, fs)
  | (start_ms, end_ms) :: rest =>
    let fs1 : FS := { fs with
      segTemps := fs.segTemps ++ [idx]
      transcribeCalls := fs.transcribeCalls ++ [idx] }
    match transcribe idx with
    | none => (.error (.transcriptionError idx), fs1)
    | some raw =>
      let fs2 : FS := { fs1 with segTemps := fs1.segTemps.filter (fun j => j ≠ idx) }
      transcribe_go transcribe profane_words (idx + 1) rest
        (acc ++ [mkRecord start_ms end_ms raw profane_words]) fs2

/-- `transcribe_and_label_chunks(chunks, profane_words, language)` from
transcript.py, the speech engine abstracted into the oracle
`transcribe` (the language only parameterizes that oracle).  Starts the
loop at segment number 0 with an empty accumulator. -/
def transcribe_and_label_chunks (transcribe : Nat → Option String)
    (chunks : List (Nat × Nat)) (profane_words : List String) (fs : FS) :
    Except PipelineError (List SegmentRecord) × FS :=
  transcribe_go transcribe profane_words 0 chunks [] fs

/-- The fixed output path of the run (set in `__main__`). -/
def output_csv : String := "output/transcription_toxic_labels.csv"

/-- The empty file-system state at the start of a run. -/
def initFS : FS :=
  { tempTopExists := false, segTemps := [], outputFile := none, transcribeCalls := [] }

/-- The file-system state right after `main` creates the top-level
temporary audio file (`tempfile.NamedTemporaryFile(delete=False)`): the
file exists and nothing else has happened yet. -/
def startFS : FS :=
  { tempTopExists := true, segTemps := [], outputFile := none, transcribeCalls := [] }

/-- `main(video_path, output_csv, profanity_csv, language)` from
transcript.py: pre-flight existence check (raises `FileNotFoundError`),
lexicon load, creation of the top-level temporary audio file with
`delete=False` (the `with` block closes it on exit but never deletes
it), extraction, `split_audio` with the default 5000 ms window,
transcription+labelling, and the sink (which catches its own
exceptions, so `main` finishes even when saving fails).  Returns the
sink's outcome (or the escaped exception) together with the final
file-system state. -/
def main_run (env : RunEnv) : Except PipelineError SaveOutcome × FS :=
  if !env.videoExists then (.error .inputNotFound, initFS)
  else if !env.extractOk then (.error .mediaDecodeError, startFS)
  else
    match split_audio env.audioLen 5000 with
    | .error _ => (.error .mediaDecodeError, startFS)
    | .ok chunks =>
      match transcribe_and_label_chunks env.transcribe chunks
          (load_profane_words_complete env.profanityCsv).1 startFS with
      | (.error e, fs2) => (.error e, fs2)
      | (.ok results, fs2) =>
        (.ok (save_to_csv results output_csv env.sink),
         { tempTopExists := fs2.tempTopExists
           segTemps := fs2.segTemps
           outputFile :=
             match save_to_csv results output_csv env.sink with
             | .saved lines => some lines
             | _ => fs2.outputFile
           transcribeCalls := fs2.transcribeCalls })

/-- The list of records the loop appends on an all-successful pass over
`chunks`, the first of which is segment number `idx` (the engine's raw
answer for segment `j` being `(tr j).getD ""`; on the success path the
`getD` default is never used). -/
def buildRecords (tr : Nat → Option String) (profane_words : List String) :
    Nat → List (Nat × Nat) → List SegmentRecord
  | _, [] => []
  | idx, (start_ms, end_ms) :: rest =>
    mkRecord start_ms end_ms ((tr idx).getD "") profane_words ::
      buildRecords tr profane_words (idx + 1) rest

/-! ## Arithmetic of the fixed-window segmentation -/

theorem ceilDiv_succ_step (a step : Nat) (hs : 0 < step) (ha : 0 < a) :
    (a + step - 1) / step = (a - step + step - 1) / step + 1 := by
  rcases le_or_lt a step with h | h
  · have h1 : a - step = 0 := by omega
    have h2 : (0 + step - 1) / step = 0 := Nat.div_eq_of_lt (by omega)
    have h3 : (a + step - 1) / step = 1 := by
      have hlo : 1 * step ≤ a + step - 1 := by omega
      have hhi : a + step - 1 < 2 * step := by omega
      exact Nat.div_eq_of_lt_le hlo hhi
    rw [h1, h2, h3]
  · have h4 : a + step - 1 = (a - step + step - 1) + step := by omega
    rw [h4, Nat.add_div_right _ hs]

theorem pyRangeUp_closed_form (fuel stop step : Nat) (hs : 0 < step) :
    ∀ i, stop - i ≤ fuel →
      pyRangeUp fuel i stop step =
        (List.range ((stop - i + step - 1) / step)).map (fun k => i + k * step) := by
  induction fuel with
  | zero =>
    intro i hf
    have h0 : stop - i = 0 := by omega
    rw [h0]
    have h1 : (0 + step - 1) / step = 0 := Nat.div_eq_of_lt (by omega)
    rw [h1]
    simp [pyRangeUp]
  | succ fuel ih =>
    intro i hf
    by_cases h : i < stop
    · rw [show pyRangeUp (fuel + 1) i stop step =
          i :: pyRangeUp fuel (i + step) stop step by simp [pyRangeUp, h]]
      rw [ih (i + step) (by omega)]
      rw [show stop - (i + step) = stop - i - step by omega]
      rw [ceilDiv_succ_step (stop - i) step hs (by omega)]
      rw [List.range_succ_eq_map]
      simp only [List.map_cons, List.map_map]
      congr 1
      · omega
      · apply List.map_congr_left
        intro k _
        simp only [Function.comp_apply, Nat.succ_eq_add_one]
        ring
    · rw [show pyRangeUp (fuel + 1) i stop step = [] by simp [pyRangeUp, h]]
      have h0 : stop - i = 0 := by omega
      rw [h0]
      have h1 : (0 + step - 1) / step = 0 := Nat.div_eq_of_lt (by omega)
      rw [h1]
      simp

theorem split_audio_pos (d w : Nat) (hw : 0 < w) :
    split_audio d (w : Int) =
      .ok ((List.range ((d + w - 1) / w)).map (fun k => (k * w, min (k * w + w) d))) := by
  unfold split_audio pyRange0
  rw [if_neg (by exact_mod_cast hw.ne'), if_neg (by omega)]
  rw [show ((w : Int)).toNat = w from rfl]
  rw [pyRangeUp_closed_form d d w hw 0 (by omega)]
  rw [show d - 0 = d from rfl]
  simp only [Except.map, List.map_map]
  congr 1
  apply List.map_congr_left
  intro k _
  simp [Function.comp]

theorem segment_key_bound (d w k : Nat) (hw : 0 < w) (hk : k < (d + w - 1) / w) :
    k * w < d := by
  have h1 : (k + 1) * w ≤ ((d + w - 1) / w) * w :=
    Nat.mul_le_mul_right w (Nat.succ_le_of_lt hk)
  have h2 : ((d + w - 1) / w) * w ≤ d + w - 1 := Nat.div_mul_le_self _ _
  have h3 : k * w + w ≤ d + w - 1 := by
    have h4 : (k + 1) * w = k * w + w := by ring
    omega
  have hd : 1 ≤ d := by
    have h5 : 1 ≤ (d + w - 1) / w := by omega
    have h6 : w ≤ d + w - 1 := (Nat.one_le_div_iff hw).mp h5
    omega
  omega

theorem segment_total_bound (d w : Nat) (hw : 0 < w) : d ≤ ((d + w - 1) / w) * w := by
  have h1 : d + w - 1 < w * ((d + w - 1) / w + 1) := Nat.lt_mul_div_succ _ hw
  have h2 : w * ((d + w - 1) / w + 1) = ((d + w - 1) / w) * w + w := by ring
  omega

/-- C2: for every positive window size `w` (ms) and stream duration `d`
(ms), `split_audio` succeeds and produces exactly ⌈d/w⌉ segments in
ascending start order — the k-th is `[k·w, min(k·w + w, d))` — all of
length exactly `w` except possibly the last; consecutive segments are
adjacent (no gaps, no overlaps), the first starts at 0 and the last
ends at `d`, so they cover `[0, d)` exactly; no segment is empty, and a
non-empty stream yields at least one (short) segment.  (Instantiated at
`d = 12000`, `w = 5000` in the witness: exactly the three segments
`[0,5000)`, `[5000,10000)`, `[10000,12000)`.) -/
theorem split_audio_correct (d w : Nat) (hw : 0 < w) :
    ∃ segs : List (Nat × Nat), split_audio d (w : Int) = .ok segs ∧
      segs.length = (d + w - 1) / w ∧
      (∀ k, ∀ h : k < segs.length, segs.get ⟨k, h⟩ = (k * w, min (k * w + w) d)) ∧
      (0 < d → segs ≠ []) ∧
      (∀ k, ∀ h : k < segs.length, (segs.get ⟨k, h⟩).1 < (segs.get ⟨k, h⟩).2) ∧
      (∀ k, ∀ h : k + 1 < segs.length,
        (segs.get ⟨k, Nat.lt_of_succ_lt h⟩).2 = (segs.get ⟨k + 1, h⟩).1 ∧
        (segs.get ⟨k, Nat.lt_of_succ_lt h⟩).2 - (segs.get ⟨k, Nat.lt_of_succ_lt h⟩).1 = w) ∧
      (∀ h : 0 < segs.length, (segs.get ⟨0, h⟩).1 = 0 ∧
        (segs.get ⟨segs.length - 1, by omega⟩).2 = d) := by
  refine ⟨_, split_audio_pos d w hw, ?_, ?_, ?_, ?_, ?_, ?_⟩
  · simp
  · intro k h
    simp at h
    simp [h]
  · intro hd
    have h1 : 1 ≤ (d + w - 1) / w := (Nat.one_le_div_iff hw).mpr (by omega)
    simp only [ne_eq, List.map_eq_nil_iff, List.range_eq_nil]
    omega
  · intro k h
    simp only [List.length_map, List.length_range] at h
    have hlt := segment_key_bound d w k hw h
    simp only [List.get_eq_getElem, List.getElem_map, List.getElem_range]
    omega
  · intro k h
    simp only [List.length_map, List.length_range] at h
    have hlt := segment_key_bound d w (k + 1) hw h
    have hsm : (k + 1) * w = k * w + w := by ring
    simp only [List.get_eq_getElem, List.getElem_map, List.getElem_range]
    omega
  · intro h
    simp only [List.length_map, List.length_range] at h
    constructor
    · simp [h]
    · have htot := segment_total_bound d w hw
      simp only [List.get_eq_getElem, List.length_map, List.length_range, List.getElem_map,
        List.getElem_range]
      have h5 : ((d + w - 1) / w - 1) * w + w = ((d + w - 1) / w) * w := by
        have h6 : (d + w - 1) / w - 1 + 1 = (d + w - 1) / w := by omega
        calc ((d + w - 1) / w - 1) * w + w = (((d + w - 1) / w - 1) + 1) * w := by ring
          _ = ((d + w - 1) / w) * w := by rw [h6]
      rw [h5]
      exact min_eq_right htot

/-- Witness for C2 at the claim's concrete instance: a 12-second stream
with a 5-second window yields exactly the segments `[0,5000)`,
`[5000,10000)`, `[10000,12000)`, and the general theorem applies. -/
theorem split_audio_correct_witness :
    split_audio 12000 ((5000 : Nat) : Int) = .ok [(0, 5000), (5000, 10000), (10000, 12000)] ∧
    (∃ segs : List (Nat × Nat), split_audio 12000 ((5000 : Nat) : Int) = .ok segs ∧
      segs.length = (12000 + 5000 - 1) / 5000 ∧
      (∀ k, ∀ h : k < segs.length, segs.get ⟨k, h⟩ = (k * 5000, min (k * 5000 + 5000) 12000)) ∧
      (0 < 12000 → segs ≠ []) ∧
      (∀ k, ∀ h : k < segs.length, (segs.get ⟨k, h⟩).1 < (segs.get ⟨k, h⟩).2) ∧
      (∀ k, ∀ h : k + 1 < segs.length,
        (segs.get ⟨k, Nat.lt_of_succ_lt h⟩).2 = (segs.get ⟨k + 1, h⟩).1 ∧
        (segs.get ⟨k, Nat.lt_of_succ_lt h⟩).2 - (segs.get ⟨k, Nat.lt_of_succ_lt h⟩).1 = 5000) ∧
      (∀ h : 0 < segs.length, (segs.get ⟨0, h⟩).1 = 0 ∧
        (segs.get ⟨segs.length - 1, by omega⟩).2 = 12000)) :=
  ⟨rfl, split_audio_correct 12000 5000 (by decide)⟩

/-- C3 (amended): the code performs no window-size validation and has no
`InvalidConfiguration` condition.  A zero window size fails, but with
the `ValueError` that Python's `range` raises on a zero step; a negative
window size does not fail at all — it silently yields an empty segment
list; a positive window size never fails. -/
theorem split_audio_nonpositive (d : Nat) (w : Int) :
    (split_audio d 0 = .error .zeroStep) ∧
    (w < 0 → split_audio d w = .ok []) ∧
    (0 < w → ∃ segs, split_audio d w = .ok segs) := by
  refine ⟨rfl, ?_, ?_⟩
  · intro hw
    unfold split_audio pyRange0
    rw [if_neg (by omega), if_pos hw]
    rfl
  · intro hw
    have h : split_audio d w =
        .ok ((pyRangeUp d 0 d w.toNat).map (fun i => (i, min (i + w.toNat) d))) := by
      unfold split_audio pyRange0
      rw [if_neg (by omega), if_neg (by omega)]
      rfl
    exact ⟨_, h⟩

/-- Counterexample to C3 as stated: a negative (hence non-positive)
window size does not make the segmenter fail with any error condition —
`split_audio` returns successfully with an empty segment list. -/
theorem split_audio_nonpositive_cex :
    split_audio 12000 (-5000) = .ok [] ∧
      ∀ e : RangeError, split_audio 12000 (-5000) ≠ .error e := by
  refine ⟨rfl, ?_⟩
  intro e h
  rw [show split_audio 12000 (-5000) = .ok [] from rfl] at h
  exact Except.noConfusion h

/-- Witness for C3 (amended) at concrete window sizes 0, -3 and 3. -/
theorem split_audio_nonpositive_witness :
    (split_audio 7 0 = .error .zeroStep) ∧
    (split_audio 7 (-3) = .ok []) ∧
    (∃ segs, split_audio 7 3 = .ok segs) :=
  ⟨(split_audio_nonpositive 7 0).1,
   (split_audio_nonpositive 7 (-3)).2.1 (by decide),
   (split_audio_nonpositive 7 3).2.2 (by decide)⟩

/-! ## The classifier matches exactly the whole words (for word-shaped terms) -/

theorem list_any_congr {α : Type} {p q : α → Bool} {l : List α}
    (h : ∀ a ∈ l, p a = q a) : l.any p = l.any q := by
  induction l with
  | nil => rfl
  | cons a l ih =>
    simp only [List.any_cons]
    rw [h a (by simp), ih (fun b hb => h b (by simp [hb]))]

theorem take_of_prefix_drop (s w t : List Char) (i : Nat) (hi : i ≤ s.length)
    (ht : w ++ t = s.drop i) :
    s.take (i + w.length) = s.take i ++ w ∧ s.drop (i + w.length) = t := by
  have hs : s = (s.take i ++ w) ++ t := by
    conv_lhs => rw [← List.take_append_drop i s, ← ht]
    simp [List.append_assoc]
  have hlen : (s.take i ++ w).length = i + w.length := by
    simp [List.length_take]
    omega
  constructor
  · calc s.take (i + w.length) = ((s.take i ++ w) ++ t).take (i + w.length) := by rw [← hs]
      _ = s.take i ++ w := by rw [← hlen, List.take_left]
  · calc s.drop (i + w.length) = ((s.take i ++ w) ++ t).drop (i + w.length) := by rw [← hs]
      _ = t := by rw [← hlen, List.drop_left]

theorem matchTermAt_eq_wholeWordAt (s w : List Char) (hw : w ≠ [])
    (hall : w.all isWordChar = true) (i : Nat) (hi : i ≤ s.length) :
    matchTermAt s w i = wholeWordAt s w i := by
  unfold matchTermAt wholeWordAt
  cases hp : w.isPrefixOf (s.drop i) with
  | false => simp [hp]
  | true =>
    obtain ⟨t, ht⟩ := List.isPrefixOf_iff_prefix.mp hp
    obtain ⟨htake, hdrop⟩ := take_of_prefix_drop s w t i hi ht
    have hhead : (s.drop i).head? = some (w.head hw) := by
      rw [← ht, List.head?_eq_head (by simp [hw])]
      cases w with
      | nil => exact absurd rfl hw
      | cons c w' => rfl
    have hheadWord : isWordChar (w.head hw) = true :=
      List.all_eq_true.mp hall _ (List.head_mem hw)
    have hlast : (s.take (i + w.length)).getLast? = some (w.getLast hw) := by
      rw [htake, List.getLast?_append, List.getLast?_eq_getLast w hw]
      rfl
    have hlastWord : isWordChar (w.getLast hw) = true :=
      List.all_eq_true.mp hall _ (List.getLast_mem hw)
    have wb1 : wordBoundary s i = !optIsWord (s.take i).getLast? := by
      unfold wordBoundary
      rw [hhead]
      show (_ != optIsWord (some (w.head hw))) = _
      rw [show optIsWord (some (w.head hw)) = true from hheadWord, Bool.bne_true]
    have wb2 : wordBoundary s (i + w.length) = !optIsWord (s.drop (i + w.length)).head? := by
      unfold wordBoundary
      rw [hlast]
      show (optIsWord (some (w.getLast hw)) != _) = _
      rw [show optIsWord (some (w.getLast hw)) = true from hlastWord, Bool.true_bne]
    rw [wb1, wb2]
    cases optIsWord (s.take i).getLast? <;>
      cases optIsWord (s.drop (i + w.length)).head? <;> rfl

theorem searchTerm_eq_isWholeWordOf (s w : List Char) (hw : w ≠ [])
    (hall : w.all isWordChar = true) :
    searchTerm s w = isWholeWordOf s w := by
  unfold searchTerm isWholeWordOf
  have h1 : (!w.isEmpty) = true := by
    cases w with
    | nil => exact absurd rfl hw
    | cons c w' => rfl
  rw [h1, hall]
  simp only [Bool.true_and]
  apply list_any_congr
  intro i hi
  exact matchTermAt_eq_wholeWordAt s w hw hall i (by
    have := List.mem_range.mp hi
    omega)

/-- C1 (amended): for every text `t` and every lexicon `L` all of whose
terms are non-empty and consist only of word characters (letters,
digits, underscore) — the shape every meaningful profanity term has —
the classifier returns 1 iff some whole word of the lowercased text
(case-insensitive, word-boundary delimited) equals some term of `L`; in
particular a term embedded inside a longer word (e.g. "ass" inside
"class") yields 0.  For degenerate terms (an empty term, or a term
containing a non-word character) the equivalence fails — see the
counterexample. -/
theorem contains_profane_words_iff (t : String) (L : List String)
    (hL : ∀ w ∈ L, w.toList ≠ [] ∧ w.toList.all isWordChar = true) :
    contains_profane_words t L = true ↔
      ∃ w ∈ L, isWholeWordOf (t.toList.map Char.toLower) w.toList = true := by
  unfold contains_profane_words
  rw [List.any_eq_true]
  constructor
  · rintro ⟨w, hwL, hsearch⟩
    refine ⟨w, hwL, ?_⟩
    rw [← searchTerm_eq_isWholeWordOf _ _ (hL w hwL).1 (hL w hwL).2]
    exact hsearch
  · rintro ⟨w, hwL, hww⟩
    refine ⟨w, hwL, ?_⟩
    rw [searchTerm_eq_isWholeWordOf _ _ (hL w hwL).1 (hL w hwL).2]
    exact hww

/-- Counterexample to C1 as universally stated: take the lexicon whose
only term is the empty string (reachable through the loader from a csv
row whose `Profanity` cell is blank).  On the text "hi" the classifier
returns 1 — the pattern `\b\b` matches at position 0 — yet no whole
word of "hi" equals the empty term. -/
theorem contains_profane_words_cex :
    contains_profane_words "hi" [""] = true ∧
      ¬ ∃ w ∈ ([""] : List String), isWholeWordOf ("hi".toList.map Char.toLower) w.toList = true := by
  constructor
  · decide
  · decide

/-- Witness for C1 (amended) at the claim's own example: lexicon term
"ass" and a text containing it only inside the longer word "class"; the
equivalence applies and the classifier yields 0 there, while a text
containing "ass" as a whole word (next to punctuation) yields 1. -/
theorem contains_profane_words_iff_witness :
    (∀ w ∈ (["ass"] : List String), w.toList ≠ [] ∧ w.toList.all isWordChar = true) ∧
    (contains_profane_words "He has class" ["ass"] = true ↔
      ∃ w ∈ (["ass"] : List String),
        isWholeWordOf ("He has class".toList.map Char.toLower) w.toList = true) ∧
    contains_profane_words "He has class" ["ass"] = false ∧
    contains_profane_words "He has Ass, yes" ["ass"] = true :=
  ⟨by decide, contains_profane_words_iff "He has class" ["ass"] (by decide),
   by decide, by decide⟩

/-! ## Loader properties -/

theorem pySetAdd_mem (s : List String) (x y : String) :
    y ∈ pySetAdd s x ↔ y ∈ s ∨ y = x := by
  unfold pySetAdd
  split
  · rename_i h
    constructor
    · exact Or.inl
    · rintro (hy | rfl)
      · exact hy
      · exact h
  · simp

theorem pySetAdd_nodup (s : List String) (x : String) (h : s.Nodup) :
    (pySetAdd s x).Nodup := by
  unfold pySetAdd
  split
  · exact h
  · rename_i hx
    simp [List.nodup_append, h, hx]

theorem loadFold_mem (rows : List (List (String × String))) (acc : List String) (u : String) :
    u ∈ rows.foldl loadRowStep acc ↔
      u ∈ acc ∨ ∃ row ∈ rows, ∃ v, pyLookup "Profanity" row = some v ∧ u = pyLower (pyStrip v) := by
  induction rows generalizing acc with
  | nil => simp
  | cons r rs ih =>
    rw [List.foldl_cons, ih]
    show _ ↔ _ ∨ ∃ row ∈ r :: rs, _
    simp only [List.mem_cons]
    cases h : pyLookup "Profanity" r with
    | none =>
      unfold loadRowStep
      rw [h]
      constructor
      · rintro (ha | hex)
        · exact Or.inl ha
        · obtain ⟨row, hrow, hv⟩ := hex
          exact Or.inr ⟨row, Or.inr hrow, hv⟩
      · rintro (ha | ⟨row, hrow | hrow, v, hv, hu⟩)
        · exact Or.inl ha
        · rw [hrow] at hv
          rw [hv] at h
          exact Option.noConfusion h
        · exact Or.inr ⟨row, hrow, v, hv, hu⟩
    | some v =>
      unfold loadRowStep
      rw [h, pySetAdd_mem]
      constructor
      · rintro ((ha | rfl) | hex)
        · exact Or.inl ha
        · exact Or.inr ⟨r, Or.inl rfl, v, h, rfl⟩
        · obtain ⟨row, hrow, hv⟩ := hex
          exact Or.inr ⟨row, Or.inr hrow, hv⟩
      · rintro (ha | ⟨row, hrow | hrow, v2, hv2, hu⟩)
        · exact Or.inl (Or.inl ha)
        · rw [hrow] at hv2
          rw [hv2] at h
          have hvv : v2 = v := Option.some_injective _ h
          rw [hu, hvv]
          exact Or.inl (Or.inr rfl)
        · exact Or.inr ⟨row, hrow, v2, hv2, hu⟩

theorem loadFold_nodup (rows : List (List (String × String))) (acc : List String)
    (h : acc.Nodup) : (rows.foldl loadRowStep acc).Nodup := by
  induction rows generalizing acc with
  | nil => exact h
  | cons r rs ih =>
    rw [List.foldl_cons]
    refine ih _ ?_
    unfold loadRowStep
    cases pyLookup "Profanity" r with
    | none => exact h
    | some v => exact pySetAdd_nodup _ _ h

theorem loadRows_cons_eq (row : List (String × Option String))
    (rest : List (List (String × Option String))) (acc : List String) :
    loadRows (row :: rest) acc =
      match loadRow acc row with
      | Except.error e => Except.error e
      | Except.ok acc2 => loadRows rest acc2 := rfl

theorem load_rows_src_eq (rs : List (List (String × Option String))) :
    load_profane_words_from_csv (some (.rows rs)) =
      match loadRows rs [] with
      | Except.error e => Except.error e
      | Except.ok lex => Except.ok (lex, LoadOutcome.loaded) := rfl

theorem loadRows_complete (rows : List (List (String × String))) :
    ∀ acc, loadRows (rows.map (fun row => row.map (fun kv => (kv.1, some kv.2)))) acc =
      .ok (rows.foldl loadRowStep acc) := by
  induction rows with
  | nil => intro acc; rfl
  | cons r rest ih =>
    intro acc
    have hlk : pyLookup "Profanity" (r.map (fun kv => (kv.1, some kv.2))) =
        (pyLookup "Profanity" r).map some := by
      unfold pyLookup
      rw [List.find?_map]
      rw [show ((fun kv : String × Option String => kv.1 == "Profanity") ∘
        (fun kv : String × String => (kv.1, some kv.2))) =
        (fun kv : String × String => kv.1 == "Profanity") from rfl]
      cases List.find? (fun kv : String × String => kv.1 == "Profanity") r with
      | none => rfl
      | some kv => rfl
    rw [List.map_cons, List.foldl_cons, loadRows_cons_eq]
    cases hl : pyLookup "Profanity" r with
    | none =>
      have hlr : loadRow acc (r.map (fun kv => (kv.1, some kv.2))) = Except.ok acc := by
        unfold loadRow
        rw [hlk, hl]
        rfl
      rw [hlr]
      unfold loadRowStep
      rw [hl]
      exact ih acc
    | some v =>
      have hlr : loadRow acc (r.map (fun kv => (kv.1, some kv.2))) =
          Except.ok (pySetAdd acc (pyLower (pyStrip v))) := by
        unfold loadRow
        rw [hlk, hl]
        rfl
      rw [hlr]
      unfold loadRowStep
      rw [hl]
      exact ih (pySetAdd acc (pyLower (pyStrip v)))

theorem load_complete_agrees (src : Option (List (List (String × String)))) :
    load_profane_words_from_csv (src.map completeRows) =
      .ok (load_profane_words_complete src) := by
  cases src with
  | none => rfl
  | some rows =>
    show load_profane_words_from_csv (some (LoadSrc.rows
      (rows.map (fun row => row.map (fun kv => (kv.1, some kv.2)))))) =
      Except.ok (rows.foldl loadRowStep [], LoadOutcome.loaded)
    rw [load_rows_src_eq, loadRows_complete rows []]

theorem loadRows_ok (rows : List (List (String × Option String))) :
    ∀ acc : List String, (∀ row ∈ rows, pyLookup "Profanity" row ≠ some none) →
      ∃ lex, loadRows rows acc = .ok lex ∧
        (∀ u, u ∈ lex ↔ u ∈ acc ∨ ∃ row ∈ rows, ∃ v,
          pyLookup "Profanity" row = some (some v) ∧ u = pyLower (pyStrip v)) ∧
        (acc.Nodup → lex.Nodup) := by
  induction rows with
  | nil =>
    intro acc h
    exact ⟨acc, rfl, by simp, id⟩
  | cons r rest ih =>
    intro acc h
    cases hlk : pyLookup "Profanity" r with
    | none =>
      obtain ⟨lex, heq, hmem, hnd⟩ := ih acc (fun row hrow => h row (List.mem_cons_of_mem r hrow))
      refine ⟨lex, ?_, ?_, hnd⟩
      · have hlr : loadRow acc r = Except.ok acc := by
          unfold loadRow
          rw [hlk]
        rw [loadRows_cons_eq, hlr]
        exact heq
      · intro u
        rw [hmem u]
        constructor
        · rintro (ha | ⟨row, hrow, v, hv, hu⟩)
          · exact Or.inl ha
          · exact Or.inr ⟨row, List.mem_cons_of_mem r hrow, v, hv, hu⟩
        · rintro (ha | ⟨row, hrow, v, hv, hu⟩)
          · exact Or.inl ha
          · rcases List.mem_cons.mp hrow with rfl | hrow2
            · rw [hlk] at hv
              exact Option.noConfusion hv
            · exact Or.inr ⟨row, hrow2, v, hv, hu⟩
    | some cell =>
      cases cell with
      | none => exact absurd hlk (h r (List.mem_cons_self r rest))
      | some v =>
        obtain ⟨lex, heq, hmem, hnd⟩ := ih (pySetAdd acc (pyLower (pyStrip v)))
          (fun row hrow => h row (List.mem_cons_of_mem r hrow))
        refine ⟨lex, ?_, ?_, fun hacc => hnd (pySetAdd_nodup _ _ hacc)⟩
        · have hlr : loadRow acc r = Except.ok (pySetAdd acc (pyLower (pyStrip v))) := by
            unfold loadRow
            rw [hlk]
          rw [loadRows_cons_eq, hlr]
          exact heq
        · intro u
          rw [hmem u, pySetAdd_mem]
          constructor
          · rintro ((ha | rfl) | ⟨row, hrow, v2, hv2, hu⟩)
            · exact Or.inl ha
            · exact Or.inr ⟨r, List.mem_cons_self r rest, v, hlk, rfl⟩
            · exact Or.inr ⟨row, List.mem_cons_of_mem r hrow, v2, hv2, hu⟩
          · rintro (ha | ⟨row, hrow, v2, hv2, hu⟩)
            · exact Or.inl (Or.inl ha)
            · rcases List.mem_cons.mp hrow with rfl | hrow2
              · rw [hlk] at hv2
                have hvv : v = v2 :=
                  Option.some_injective _ (Option.some_injective _ hv2)
                rw [hu, ← hvv]
                exact Or.inl (Or.inr rfl)
              · exact Or.inr ⟨row, hrow2, v2, hv2, hu⟩

theorem loadRows_fail (rows : List (List (String × Option String))) :
    ∀ (k : Nat) (acc : List String), k < rows.length →
      pyLookup "Profanity" (rows.getD k []) = some none →
      (∀ j, j < k → pyLookup "Profanity" (rows.getD j []) ≠ some none) →
      loadRows rows acc = .error .attributeError := by
  induction rows with
  | nil =>
    intro k acc hk
    exact absurd hk (by simp)
  | cons r rest ih =>
    intro k acc hk hfail hbefore
    cases k with
    | zero =>
      rw [List.getD_cons_zero] at hfail
      have hlr : loadRow acc r = Except.error LoadExc.attributeError := by
        unfold loadRow
        rw [hfail]
      rw [loadRows_cons_eq, hlr]
    | succ k =>
      have h0 : pyLookup "Profanity" r ≠ some none := by
        have h1 := hbefore 0 (Nat.succ_pos k)
        rw [List.getD_cons_zero] at h1
        exact h1
      rw [loadRows_cons_eq]
      cases hlk : pyLookup "Profanity" r with
      | none =>
        have hlr : loadRow acc r = Except.ok acc := by
          unfold loadRow
          rw [hlk]
        rw [hlr]
        exact ih k acc (Nat.lt_of_succ_lt_succ hk)
          (by rw [List.getD_cons_succ] at hfail; exact hfail)
          (fun j hj => by
            have h2 := hbefore (j + 1) (Nat.succ_lt_succ hj)
            rw [List.getD_cons_succ] at h2
            exact h2)
      | some cell =>
        cases cell with
        | none => exact absurd hlk h0
        | some v =>
          have hlr : loadRow acc r = Except.ok (pySetAdd acc (pyLower (pyStrip v))) := by
            unfold loadRow
            rw [hlk]
          rw [hlr]
          exact ih k (pySetAdd acc (pyLower (pyStrip v))) (Nat.lt_of_succ_lt_succ hk)
            (by rw [List.getD_cons_succ] at hfail; exact hfail)
            (fun j hj => by
              have h2 := hbefore (j + 1) (Nat.succ_lt_succ hj)
              rw [List.getD_cons_succ] at h2
              exact h2)

/-- C4 (amended): the lexicon loader never fails only when the source
path does not exist — then it returns the empty lexicon with the
reported, non-fatal not-found outcome.  On an existing source it can
fail: an open or decode error propagates uncaught, and a data row
shorter than the header — whose `Profanity` cell `csv.DictReader`
fills with `None` — raises `AttributeError` at
`row['Profanity'].strip()`, aborting the whole load.  When no such row
or error occurs, the load succeeds: rows lacking the `Profanity` key
are skipped silently, a term is in the result exactly when some row
supplies it, every accepted term is stored stripped of surrounding
whitespace and lowercased, and the result is duplicate-free (set
semantics). -/
theorem load_profane_words_correct (src : Option LoadSrc) :
    (src = none → load_profane_words_from_csv src = .ok ([], .notFound)) ∧
    (∀ e, src = some (.failure e) → load_profane_words_from_csv src = .error e) ∧
    (∀ rows, src = some (.rows rows) →
      (∀ row ∈ rows, pyLookup "Profanity" row ≠ some none) →
      ∃ lex, load_profane_words_from_csv src = .ok (lex, .loaded) ∧
        (∀ u, u ∈ lex ↔ ∃ row ∈ rows, ∃ v, pyLookup "Profanity" row = some (some v) ∧
          u = pyLower (pyStrip v)) ∧
        lex.Nodup) ∧
    (∀ rows k, src = some (.rows rows) → k < rows.length →
      pyLookup "Profanity" (rows.getD k []) = some none →
      (∀ j, j < k → pyLookup "Profanity" (rows.getD j []) ≠ some none) →
      load_profane_words_from_csv src = .error .attributeError) := by
  refine ⟨?_, ?_, ?_, ?_⟩
  · rintro rfl
    rfl
  · rintro e rfl
    rfl
  · rintro rows rfl h
    obtain ⟨lex, heq, hmem, hnd⟩ := loadRows_ok rows [] h
    refine ⟨lex, ?_, ?_, hnd List.nodup_nil⟩
    · rw [load_rows_src_eq, heq]
    · intro u
      rw [hmem u]
      simp
  · rintro rows k rfl hk hfail hbefore
    rw [load_rows_src_eq, loadRows_fail rows k [] hk hfail hbefore]

/-- Counterexample to C4 as stated: the loader can fail.  The csv with
header `Other,Profanity` and single data row `x` parses into the
DictReader row `{'Other': 'x', 'Profanity': None}` — the row lacks a
`Profanity` cell, yet the key is present with value `None`, so
`row['Profanity'].strip()` raises `AttributeError` and the whole load
crashes instead of skipping the row; an open/decode error on an
existing path likewise propagates. -/
theorem load_profane_words_cex :
    load_profane_words_from_csv
        (some (.rows [[("Other", some "x"), ("Profanity", none)]])) =
      .error .attributeError ∧
    load_profane_words_from_csv (some (.failure .osError)) = .error .osError :=
  ⟨rfl, rfl⟩

/-- Witness for C4 (amended): the four behaviours at concrete sources —
absent path, decode failure, a well-formed source (one term stored as
"ass" from " Ass ", a keyless row skipped, a duplicate collapsed), and
a `None`-filled row after one good row. -/
theorem load_profane_words_correct_witness :
    load_profane_words_from_csv none = .ok ([], .notFound) ∧
    load_profane_words_from_csv (some (.failure .unicodeDecodeError)) =
      .error .unicodeDecodeError ∧
    (∃ lex, load_profane_words_from_csv (some (.rows [[("Profanity", some " Ass ")],
        [("Other", some "x")], [("Profanity", some "ass")]])) = .ok (lex, .loaded) ∧
      (∀ u, u ∈ lex ↔ ∃ row ∈ [[("Profanity", some " Ass ")], [("Other", some "x")],
          [("Profanity", some "ass")]], ∃ v,
        pyLookup "Profanity" row = some (some v) ∧ u = pyLower (pyStrip v)) ∧
      lex.Nodup) ∧
    load_profane_words_from_csv (some (.rows [[("Profanity", some "ok")],
      [("Profanity", none)]])) = .error .attributeError :=
  ⟨(load_profane_words_correct none).1 rfl,
   (load_profane_words_correct _).2.1 .unicodeDecodeError rfl,
   (load_profane_words_correct _).2.2.1 _ rfl (by decide),
   (load_profane_words_correct _).2.2.2 _ 1 rfl (by decide) rfl (by decide)⟩

/-! ## Result-sink properties -/

/-- C5: the sink's two `except` clauses classify every failure.  A
`PermissionError` — whether raised by `os.makedirs` or by opening and
writing the file — is reported as the distinct permission-denied
condition; any other exception is reported as the generic error; no
exception escapes (the function always returns one of the three
outcomes).  The report value passed in is never modified, so after
either failure the very same record list saved to a writable
destination still yields the complete csv — a retried save needs no
recomputation. -/
theorem save_to_csv_failure_modes (rows : List SegmentRecord) (out : String) (env : SinkEnv) :
    (os_makedirs (pyDirname out.toList) env = some .permissionError →
      save_to_csv rows out env = .permissionDenied) ∧
    (∀ e, os_makedirs (pyDirname out.toList) env = some e → e ≠ .permissionError →
      save_to_csv rows out env = .genericError) ∧
    (os_makedirs (pyDirname out.toList) env = none → env.openExc = some .permissionError →
      save_to_csv rows out env = .permissionDenied) ∧
    (os_makedirs (pyDirname out.toList) env = none → ∀ e, env.openExc = some e →
      e ≠ .permissionError → save_to_csv rows out env = .genericError) ∧
    (save_to_csv rows out env = .permissionDenied ∨
      save_to_csv rows out env = .genericError ∨
      save_to_csv rows out env = .saved (renderCsv rows)) ∧
    (∀ out2 env2, os_makedirs (pyDirname out2.toList) env2 = none → env2.openExc = none →
      save_to_csv rows out2 env2 = .saved (renderCsv rows)) := by
  refine ⟨?_, ?_, ?_, ?_, ?_, ?_⟩
  · intro h
    unfold save_to_csv
    rw [h]
  · intro e h he
    unfold save_to_csv
    rw [h]
    cases e with
    | permissionError => exact absurd rfl he
    | fileNotFoundError => rfl
    | otherOSError => rfl
  · intro h ho
    unfold save_to_csv
    rw [h, ho]
  · intro h e ho he
    unfold save_to_csv
    rw [h, ho]
    cases e with
    | permissionError => exact absurd rfl he
    | fileNotFoundError => rfl
    | otherOSError => rfl
  · unfold save_to_csv
    cases h : os_makedirs (pyDirname out.toList) env with
    | some e =>
      cases e with
      | permissionError => exact Or.inl rfl
      | fileNotFoundError => exact Or.inr (Or.inl rfl)
      | otherOSError => exact Or.inr (Or.inl rfl)
    | none =>
      cases ho : env.openExc with
      | some e =>
        cases e with
        | permissionError => exact Or.inl rfl
        | fileNotFoundError => exact Or.inr (Or.inl rfl)
        | otherOSError => exact Or.inr (Or.inl rfl)
      | none => exact Or.inr (Or.inr rfl)
  · intro out2 env2 h ho
    unfold save_to_csv
    rw [h, ho]

/-- Witness for C5: on an unwritable destination the sink reports
permission denial; on a generic I/O failure it reports the generic
error; retrying the very same (unmodified) report on a writable
destination then writes the full csv. -/
theorem save_to_csv_failure_modes_witness :
    save_to_csv [⟨"0.0s - 3.0s", "", 0⟩] "output/r.csv" ⟨some .permissionError, none⟩ =
      .permissionDenied ∧
    save_to_csv [⟨"0.0s - 3.0s", "", 0⟩] "output/r.csv" ⟨some .otherOSError, none⟩ =
      .genericError ∧
    save_to_csv [⟨"0.0s - 3.0s", "", 0⟩] "output/r.csv" ⟨none, none⟩ =
      .saved (renderCsv [⟨"0.0s - 3.0s", "", 0⟩]) :=
  ⟨(save_to_csv_failure_modes [⟨"0.0s - 3.0s", "", 0⟩] "output/r.csv"
      ⟨some .permissionError, none⟩).1 rfl,
   (save_to_csv_failure_modes [⟨"0.0s - 3.0s", "", 0⟩] "output/r.csv"
      ⟨some .otherOSError, none⟩).2.1 .otherOSError rfl (by decide),
   (save_to_csv_failure_modes [⟨"0.0s - 3.0s", "", 0⟩] "anywhere" ⟨none, none⟩).2.2.2.2.2
      "output/r.csv" ⟨none, none⟩ rfl rfl⟩

/-- C10: a destination path with no directory component (a bare
filename) always makes the sink fail through the generic `except
Exception` branch, writing nothing, whatever the environment would
allow: `os.path.dirname` yields the empty string and
`os.makedirs('')` raises `FileNotFoundError` unconditionally. -/
theorem bare_filename_save_fails (rows : List SegmentRecord) (p : String) (env : SinkEnv)
    (h : ('/' ∈ p.toList) = False) :
    save_to_csv rows p env = .genericError ∧
      ∀ lines, save_to_csv rows p env ≠ .saved lines := by
  have hdrop : p.toList.reverse.dropWhile (fun c => c != '/') = [] := by
    rw [List.dropWhile_eq_nil_iff]
    intro c hc
    have hcp : c ∈ p.toList := List.mem_reverse.mp hc
    simp only [bne_iff_ne, ne_eq]
    intro hceq
    rw [hceq] at hcp
    rw [h] at hcp
    exact hcp
  have hdir : pyDirname p.toList = [] := by
    unfold pyDirname
    rw [hdrop]
    simp
  have hmk : os_makedirs (pyDirname p.toList) env = some .fileNotFoundError := by
    rw [hdir]
    rfl
  have hmain : save_to_csv rows p env = .genericError := by
    unfold save_to_csv
    rw [hmk]
  refine ⟨hmain, ?_⟩
  intro lines hcon
  rw [hmain] at hcon
  exact SaveOutcome.noConfusion hcon

/-- Witness for C10: the bare filename "out.csv", even with a fully
permissive environment, is reported as a generic error and nothing is
saved. -/
theorem bare_filename_save_fails_witness :
    save_to_csv [] "out.csv" ⟨none, none⟩ = .genericError ∧
      ∀ lines, save_to_csv [] "out.csv" ⟨none, none⟩ ≠ .saved lines :=
  bare_filename_save_fails [] "out.csv" ⟨none, none⟩ (by decide)

/-! ## Per-segment loop: temporary-file lifecycle and abort behaviour -/

theorem append_filter_ne (l : List Nat) (a : Nat) (h : a ∉ l) :
    (l ++ [a]).filter (fun j => j ≠ a) = l := by
  rw [List.filter_append]
  have h1 : List.filter (fun j => decide (j ≠ a)) [a] = [] := by simp
  have h2 : List.filter (fun j => decide (j ≠ a)) l = l := by
    rw [List.filter_eq_self]
    intro b hb
    simp only [decide_eq_true_eq]
    intro hba
    rw [hba] at hb
    exact h hb
  rw [h1, h2, List.append_nil]

theorem range_map_add_succ (n a : Nat) :
    (List.range (n + 1)).map (fun k => a + k) = a :: (List.range n).map (fun k => a + 1 + k) := by
  rw [List.range_succ_eq_map]
  simp only [List.map_cons, List.map_map, Nat.add_zero]
  congr 1
  apply List.map_congr_left
  intro k _
  simp only [Function.comp_apply, Nat.succ_eq_add_one]
  omega

/-- C7 (amended): the per-segment temporary file lifecycle, one loop
iteration at a time.  When transcription of segment `idx` succeeds, the
iteration removes the segment's temporary file before handing control
to the next segment — the state passed on has exactly the incoming
`segTemps`.  But when transcription of segment `idx` raises, the
`os.remove` line is never reached: the loop stops and the segment's
temporary file is left behind in `segTemps` (it is never removed, not
even at run end), contrary to the claimed release-on-failure. -/
theorem transcribe_step_temp_lifecycle (tr : Nat → Option String) (pw : List String)
    (idx start_ms end_ms : Nat) (rest : List (Nat × Nat)) (acc : List SegmentRecord)
    (fs : FS) (hclean : idx ∉ fs.segTemps) :
    (∀ raw, tr idx = some raw →
      transcribe_go tr pw idx ((start_ms, end_ms) :: rest) acc fs =
        transcribe_go tr pw (idx + 1) rest (acc ++ [mkRecord start_ms end_ms raw pw])
          { fs with transcribeCalls := fs.transcribeCalls ++ [idx] }) ∧
    (tr idx = none →
      transcribe_go tr pw idx ((start_ms, end_ms) :: rest) acc fs =
        (.error (.transcriptionError idx),
         { fs with segTemps := fs.segTemps ++ [idx],
                   transcribeCalls := fs.transcribeCalls ++ [idx] })) := by
  constructor
  · intro raw htr
    simp only [transcribe_go, htr]
    have hst : ({ fs with
        segTemps := (fs.segTemps ++ [idx]).filter (fun j => j ≠ idx),
        transcribeCalls := fs.transcribeCalls ++ [idx] } : FS) =
        { fs with transcribeCalls := fs.transcribeCalls ++ [idx] } := by
      rw [append_filter_ne _ _ hclean]
    rw [hst]
  · intro htr
    simp only [transcribe_go, htr]

theorem transcribe_go_success (tr : Nat → Option String) (pw : List String) :
    ∀ (chunks : List (Nat × Nat)) (idx : Nat) (acc : List SegmentRecord) (fs : FS),
      (∀ j, j < chunks.length → tr (idx + j) ≠ none) →
      (∀ j ∈ fs.segTemps, j < idx) →
      transcribe_go tr pw idx chunks acc fs =
        (.ok (acc ++ buildRecords tr pw idx chunks),
         { fs with transcribeCalls :=
            fs.transcribeCalls ++ (List.range chunks.length).map (fun j => idx + j) }) := by
  intro chunks
  induction chunks with
  | nil =>
    intro idx acc fs h hclean
    simp [transcribe_go, buildRecords]
  | cons c rest ih =>
    obtain ⟨start_ms, end_ms⟩ := c
    intro idx acc fs h hclean
    have h0 : tr idx ≠ none := by
      have h1 := h 0 (by simp)
      rw [Nat.add_zero] at h1
      exact h1
    cases htr : tr idx with
    | none => exact absurd htr h0
    | some raw =>
      have hnm : idx ∉ fs.segTemps := fun hmem => Nat.lt_irrefl idx (hclean idx hmem)
      rw [(transcribe_step_temp_lifecycle tr pw idx start_ms end_ms rest acc fs hnm).1 raw htr]
      rw [ih (idx + 1) (acc ++ [mkRecord start_ms end_ms raw pw])
        { fs with transcribeCalls := fs.transcribeCalls ++ [idx] }
        (by
          intro j hj
          have h2 := h (j + 1) (by simpa using Nat.succ_lt_succ hj)
          rw [show idx + (j + 1) = idx + 1 + j by omega] at h2
          exact h2)
        (by
          intro j hj
          exact Nat.lt_succ_of_lt (hclean j hj))]
      simp only [List.length_cons]
      rw [range_map_add_succ rest.length idx]
      simp [buildRecords, htr, List.append_assoc, List.singleton_append]

theorem transcribe_go_fail (tr : Nat → Option String) (pw : List String) :
    ∀ (chunks : List (Nat × Nat)) (k idx : Nat) (acc : List SegmentRecord) (fs : FS),
      k < chunks.length → tr (idx + k) = none →
      (∀ j, j < k → tr (idx + j) ≠ none) →
      (∀ j ∈ fs.segTemps, j < idx) →
      transcribe_go tr pw idx chunks acc fs =
        (.error (.transcriptionError (idx + k)),
         { fs with segTemps := fs.segTemps ++ [idx + k],
                   transcribeCalls :=
                     fs.transcribeCalls ++ (List.range (k + 1)).map (fun j => idx + j) }) := by
  intro chunks
  induction chunks with
  | nil =>
    intro k idx acc fs hk
    exact absurd hk (by simp)
  | cons c rest ih =>
    obtain ⟨start_ms, end_ms⟩ := c
    intro k idx acc fs hk hfail hbefore hclean
    have hnm : idx ∉ fs.segTemps := fun hmem => Nat.lt_irrefl idx (hclean idx hmem)
    cases k with
    | zero =>
      rw [Nat.add_zero] at hfail
      rw [(transcribe_step_temp_lifecycle tr pw idx start_ms end_ms rest acc fs hnm).2 hfail]
      simp [show List.range 1 = [0] from rfl]
    | succ k =>
      have h0 : tr idx ≠ none := by
        have h1 := hbefore 0 (Nat.succ_pos k)
        rw [Nat.add_zero] at h1
        exact h1
      cases htr : tr idx with
      | none => exact absurd htr h0
      | some raw =>
        rw [(transcribe_step_temp_lifecycle tr pw idx start_ms end_ms rest acc fs hnm).1 raw htr]
        rw [ih k (idx + 1) (acc ++ [mkRecord start_ms end_ms raw pw])
          { fs with transcribeCalls := fs.transcribeCalls ++ [idx] }
          (by exact Nat.lt_of_succ_lt_succ hk)
          (by rw [show idx + 1 + k = idx + (k + 1) by omega]; exact hfail)
          (by
            intro j hj
            have h2 := hbefore (j + 1) (Nat.succ_lt_succ hj)
            rw [show idx + (j + 1) = idx + 1 + j by omega] at h2
            exact h2)
          (by
            intro j hj
            exact Nat.lt_succ_of_lt (hclean j hj))]
        rw [show idx + 1 + k = idx + (k + 1) from by omega]
        rw [range_map_add_succ (k + 1) idx]
        simp [List.append_assoc, List.singleton_append]

theorem transcribe_go_tempTop (tr : Nat → Option String) (pw : List String) :
    ∀ (chunks : List (Nat × Nat)) (idx : Nat) (acc : List SegmentRecord) (fs : FS),
      ((transcribe_go tr pw idx chunks acc fs).2).tempTopExists = fs.tempTopExists := by
  intro chunks
  induction chunks with
  | nil =>
    intro idx acc fs
    rfl
  | cons c rest ih =>
    obtain ⟨start_ms, end_ms⟩ := c
    intro idx acc fs
    cases htr : tr idx with
    | none => simp only [transcribe_go, htr]
    | some raw =>
      simp only [transcribe_go, htr]
      exact ih _ _ _

/-- Counterexample to C7 as stated: when transcription of the (only)
segment fails, the run aborts with the per-segment temporary file still
present — it was not removed on the failure outcome, and no later code
ever removes it. -/
theorem transcribe_step_temp_cex :
    (transcribe_and_label_chunks (fun _ => none) [(0, 3000)] [] initFS).2.segTemps = [0] ∧
    (transcribe_and_label_chunks (fun _ => none) [(0, 3000)] [] initFS).1 =
      .error (.transcriptionError 0) :=
  ⟨rfl, rfl⟩

/-- Witness for C7 (amended): a successful first segment hands the next
segment a state with the temporary file already removed, while a
failing segment leaves its temporary file behind. -/
theorem transcribe_step_temp_lifecycle_witness :
    (transcribe_go (fun _ => some "ok") [] 0 [(0, 3000), (5000, 8000)] [] initFS =
      transcribe_go (fun _ => some "ok") [] 1 [(5000, 8000)]
        ([] ++ [mkRecord 0 3000 "ok" []])
        { initFS with transcribeCalls := initFS.transcribeCalls ++ [0] }) ∧
    (transcribe_go (fun _ => none) [] 0 [(0, 3000)] [] initFS =
      (.error (.transcriptionError 0),
       { initFS with segTemps := initFS.segTemps ++ [0],
                     transcribeCalls := initFS.transcribeCalls ++ [0] })) :=
  ⟨(transcribe_step_temp_lifecycle (fun _ => some "ok") [] 0 0 3000 [(5000, 8000)] []
      initFS (by decide)).1 "ok" rfl,
   (transcribe_step_temp_lifecycle (fun _ => none) [] 0 0 3000 [] [] initFS (by decide)).2 rfl⟩

/-! ## Orchestrator properties -/

/-- C6 (amended): the top-level temporary audio file is created with
`delete=False` and `main` contains no `os.remove` for it, so once the
pre-flight check passes it still exists when the run ends — on every
exit path, completed or aborted.  It is never removed, contrary to the
claimed guaranteed release. -/
theorem temp_top_never_removed (env : RunEnv) (hv : env.videoExists = true) :
    (main_run env).2.tempTopExists = true := by
  unfold main_run
  rw [hv]
  rw [if_neg (by simp)]
  cases he : env.extractOk with
  | false =>
    rw [if_pos (by simp [he])]
    rfl
  | true =>
    rw [if_neg (by simp [he])]
    cases hs : split_audio env.audioLen 5000 with
    | error e => rfl
    | ok chunks =>
      dsimp only
      unfold transcribe_and_label_chunks
      have htop := transcribe_go_tempTop env.transcribe
        (load_profane_words_complete env.profanityCsv).1 chunks 0 [] startFS
      cases hres : transcribe_go env.transcribe
          (load_profane_words_complete env.profanityCsv).1 0 chunks [] startFS with
      | mk r fs2 =>
        rw [hres] at htop
        cases r with
        | error e => exact htop
        | ok results => exact htop

/-- Counterexample to C6 as stated: a fully successful run — extraction,
transcription, labelling and saving all complete — ends with the
top-level temporary audio artifact still existing; it was not removed
by the time the run ended. -/
theorem temp_top_cex :
    (main_run ⟨true, true, 3000, fun _ => some "", none, ⟨none, none⟩⟩).1 =
      .ok (.saved ["segment,text,label", "0.0s - 3.0s,,0"]) ∧
    (main_run ⟨true, true, 3000, fun _ => some "", none, ⟨none, none⟩⟩).2.tempTopExists = true :=
  ⟨rfl, rfl⟩

/-- Witness for C6 (amended), on an aborting run (the engine fails on
segment 0): the top-level temporary audio file still exists at the end. -/
theorem temp_top_never_removed_witness :
    (main_run ⟨true, true, 3000, fun _ => none, none, ⟨none, none⟩⟩).2.tempTopExists = true :=
  temp_top_never_removed ⟨true, true, 3000, fun _ => none, none, ⟨none, none⟩⟩ rfl

theorem split_audio_5000 (d : Nat) :
    split_audio d 5000 =
      .ok ((List.range ((d + 4999) / 5000)).map (fun k => (k * 5000, min (k * 5000 + 5000) d))) := by
  have h := split_audio_pos d 5000 (by omega)
  rw [show (((5000 : Nat)) : Int) = (5000 : Int) from rfl] at h
  rw [show d + 5000 - 1 = d + 4999 from by omega] at h
  exact h

/-- C8: if transcription of some segment fails (the engine raises on
segment `k`, all earlier segments having succeeded), the whole run
aborts with that segment's `TranscriptionError`: the engine is invoked
on segments 0..k and on no later segment, and no report is written. -/
theorem transcription_failure_aborts (env : RunEnv) (k : Nat)
    (hv : env.videoExists = true) (he : env.extractOk = true)
    (hk : k < (env.audioLen + 4999) / 5000)
    (hfail : env.transcribe k = none)
    (hbefore : ∀ j, j < k → env.transcribe j ≠ none) :
    (main_run env).1 = .error (.transcriptionError k) ∧
    (main_run env).2.outputFile = none ∧
    (main_run env).2.transcribeCalls = List.range (k + 1) := by
  have hgo := transcribe_go_fail env.transcribe
    (load_profane_words_complete env.profanityCsv).1
    ((List.range ((env.audioLen + 4999) / 5000)).map
      (fun j => (j * 5000, min (j * 5000 + 5000) env.audioLen)))
    k 0 [] startFS
    (by simpa using hk)
    (by rw [Nat.zero_add]; exact hfail)
    (by
      intro j hj
      rw [Nat.zero_add]
      exact hbefore j hj)
    (by intro j hj; exact absurd hj (by simp [startFS]))
  have hmain : main_run env =
      (.error (.transcriptionError (0 + k)),
       { startFS with segTemps := startFS.segTemps ++ [0 + k],
                      transcribeCalls := startFS.transcribeCalls ++
                        (List.range (k + 1)).map (fun j => 0 + j) }) := by
    unfold main_run
    rw [hv]
    rw [if_neg (by simp)]
    rw [he]
    rw [if_neg (by simp)]
    rw [split_audio_5000 env.audioLen]
    dsimp only
    unfold transcribe_and_label_chunks
    rw [hgo]
  rw [hmain]
  refine ⟨by rw [Nat.zero_add], rfl, ?_⟩
  show ([] : List Nat) ++ (List.range (k + 1)).map (fun j => 0 + j) = List.range (k + 1)
  rw [List.nil_append]
  rw [show (fun j => 0 + j) = fun j : Nat => j from by funext j; omega]
  exact List.map_id _

/-- Witness for C8: a 12-second stream (3 segments), engine failing on
segment 1: the run aborts with that segment's error, segments 0 and 1
were attempted, segment 2 was not, and no output file exists. -/
theorem transcription_failure_aborts_witness :
    (main_run ⟨true, true, 12000, fun j => if j = 1 then none else some "", none,
        ⟨none, none⟩⟩).1 = .error (.transcriptionError 1) ∧
    (main_run ⟨true, true, 12000, fun j => if j = 1 then none else some "", none,
        ⟨none, none⟩⟩).2.outputFile = none ∧
    (main_run ⟨true, true, 12000, fun j => if j = 1 then none else some "", none,
        ⟨none, none⟩⟩).2.transcribeCalls = List.range 2 :=
  transcription_failure_aborts
    ⟨true, true, 12000, fun j => if j = 1 then none else some "", none, ⟨none, none⟩⟩ 1
    rfl rfl (by decide) rfl (by decide)

theorem buildRecords_map_range (tr : Nat → Option String) (pw : List String)
    (f1 f2 : Nat → Nat) :
    ∀ (n idx : Nat),
      buildRecords tr pw idx ((List.range n).map (fun k => (f1 k, f2 k))) =
        (List.range n).map (fun k => mkRecord (f1 k) (f2 k) ((tr (idx + k)).getD "") pw) := by
  intro n
  induction n generalizing f1 f2 with
  | zero => intro idx; rfl
  | succ n ih =>
    intro idx
    rw [List.range_succ_eq_map, List.map_cons, List.map_cons, List.map_map, List.map_map]
    rw [show ((fun k => (f1 k, f2 k)) ∘ Nat.succ) = (fun k => (f1 (k + 1), f2 (k + 1))) from rfl]
    simp only [buildRecords]
    rw [ih (fun k => f1 (k + 1)) (fun k => f2 (k + 1)) (idx + 1)]
    rw [Nat.add_zero]
    congr 1
    apply List.map_congr_left
    intro k _
    simp only [Function.comp_apply, Nat.succ_eq_add_one]
    rw [show idx + 1 + k = idx + (k + 1) from by omega]

set_option maxRecDepth 8000 in
/-- C9: every successfully saved report consists of exactly one header
row naming the three columns `segment, text, label` in that order,
followed by one rendered row per segment record; the records are in
ascending start-time order (the k-th record describes the k-th window
`[k·5000, min(k·5000+5000, d))`), each `segment` field is the
`"{start_s:.1f}s - {end_s:.1f}s"` formatting of that window, the `text`
field is the stripped engine output (possibly empty), and every label
is the integer 0 or 1. -/
theorem saved_report_format (d : Nat) (L : List String) (tr : Nat → Option String)
    (env : SinkEnv) (htr : ∀ j, tr j ≠ none)
    (hmk : env.makedirsExc = none) (hop : env.openExc = none)
    (chunks : List (Nat × Nat)) (hchunks : split_audio d 5000 = .ok chunks) :
    ∃ res fs2, transcribe_and_label_chunks tr chunks L initFS = (.ok res, fs2) ∧
      save_to_csv res output_csv env = .saved ("segment,text,label" :: res.map renderRow) ∧
      res.length = chunks.length ∧
      (∀ k, ∀ hk : k < res.length,
        (res.get ⟨k, hk⟩).segment =
          formatSec (k * 5000) ++ "s - " ++ formatSec (min (k * 5000 + 5000) d) ++ "s" ∧
        ((res.get ⟨k, hk⟩).label = 0 ∨ (res.get ⟨k, hk⟩).label = 1) ∧
        (res.get ⟨k, hk⟩).text = pyStrip ((tr k).getD "")) := by
  have hc : chunks = (List.range ((d + 4999) / 5000)).map
      (fun k => (k * 5000, min (k * 5000 + 5000) d)) := by
    have h := split_audio_5000 d
    rw [hchunks] at h
    injection h
  subst hc
  have hgo := transcribe_go_success tr L
    ((List.range ((d + 4999) / 5000)).map (fun k => (k * 5000, min (k * 5000 + 5000) d)))
    0 [] initFS
    (fun j _ => htr (0 + j))
    (by intro j hj; exact absurd hj (by simp [initFS]))
  rw [List.nil_append, buildRecords_map_range] at hgo
  unfold transcribe_and_label_chunks
  refine ⟨_, _, hgo, ?_, ?_, ?_⟩
  · unfold save_to_csv os_makedirs
    rw [if_neg (by decide)]
    rw [hmk, hop]
    rfl
  · simp
  · intro k hk
    simp only [List.length_map, List.length_range] at hk
    have hlt : k * 5000 < d := by
      refine segment_key_bound d 5000 k (by omega) ?_
      rw [show d + 5000 - 1 = d + 4999 from by omega]
      exact hk
    simp only [List.get_eq_getElem, List.getElem_map, List.getElem_range]
    refine ⟨?_, ?_, ?_⟩
    · show formatSegment (k * 5000) (min (k * 5000 + 5000) d) = _
      unfold formatSegment
      rw [show k * 5000 + (min (k * 5000 + 5000) d - k * 5000) = min (k * 5000 + 5000) d
        from by omega]
    · show (if contains_profane_words _ _ then 1 else 0) = 0 ∨
        (if contains_profane_words _ _ then 1 else 0) = 1
      cases contains_profane_words (pyStrip ((tr (0 + k)).getD "")) L with
      | false => exact Or.inl rfl
      | true => exact Or.inr rfl
    · show pyStrip ((tr (0 + k)).getD "") = pyStrip ((tr k).getD "")
      rw [Nat.zero_add]

/-- Witness for C9 on a concrete run: 12-second stream, three segments,
transcriber answering " hi " everywhere, empty lexicon, permissive sink. -/
theorem saved_report_format_witness :
    ∃ res fs2, transcribe_and_label_chunks (fun _ => some " hi ")
        [(0, 5000), (5000, 10000), (10000, 12000)] [] initFS = (.ok res, fs2) ∧
      save_to_csv res output_csv ⟨none, none⟩ =
        .saved ("segment,text,label" :: res.map renderRow) ∧
      res.length = ([(0, 5000), (5000, 10000), (10000, 12000)] : List (Nat × Nat)).length ∧
      (∀ k, ∀ hk : k < res.length,
        (res.get ⟨k, hk⟩).segment =
          formatSec (k * 5000) ++ "s - " ++ formatSec (min (k * 5000 + 5000) 12000) ++ "s" ∧
        ((res.get ⟨k, hk⟩).label = 0 ∨ (res.get ⟨k, hk⟩).label = 1) ∧
        (res.get ⟨k, hk⟩).text = pyStrip (((fun _ => some " hi ") k).getD "")) :=
  saved_report_format 12000 [] (fun _ => some " hi ") ⟨none, none⟩
    (fun _ h => Option.noConfusion h) rfl rfl
    [(0, 5000), (5000, 10000), (10000, 12000)] rfl
